import Mathlib

/-!
Shallow embedding of the Tendermint consensus core of this repository.

Sources embedded:
- `src/substrate/tendermint/machine/src/lib.rs` (the machine: `commit_msg`, `Step`,
  `Data` and its `PartialEq`, `Message`, `TendermintError`, `broadcast`,
  `populate_end_time`, `round`, `reset`, `reset_by_commit`, `slash`, `new`,
  the commit-assembly branch of `run`, `verify_precommit_signature`, `message`);
- `src/substrate/tendermint/src/message_log.rs` (`MessageLog`);
- `src/substrate/tendermint/src/ext.rs` (`Weights::threshold`, `Weights::fault_thresold`,
  `BlockError`);
- `src/substrate/tendermint/machine/src/block.rs` (`BlockData`).

Modelling conventions:
- Machine integers (`u16`, `u32`, `u64`) are modelled as `Nat`; none of the verified
  claims exercises wrap-around, and the weighted sums involved are small.
- `HashMap`/`HashSet` are modelled as association lists with `lookupA`/`insertA`;
  all quantities read from them (weight sums, membership) are independent of
  iteration order.  Indexing a `HashMap` (Rust `map[&k]`, which panics when the key
  is absent) is modelled by `Option`/`Except` with an explicit `PanicKind`.
- Wall-clock `Instant`s and `sleep` are dropped: a `CanonicalInstant` is represented
  by its canonical epoch-second value (`canonical()` in the source), which is all the
  consensus logic inspects.
- External collaborators (`Network`, `Signer`, `SignatureScheme`) are supplied as an
  `Env` of pure functions, matching the spec's contract that those interfaces are
  infallible and, for `validate`, pure with respect to chain state at call time.
- Signatures are represented symbolically as a pair (claimed signer, signed bytes);
  an idealized scheme (`idealVerify`) where verification checks exactly that pair is
  used for concrete scenarios, while theorems about `message` are parameterized over
  the environment's `verify`.
-/

deriving instance DecidableEq for Except

namespace Tendermint

/-- Validator identity (`ValidatorId` in `ext.rs`: a small hashable id). -/
abbrev ValidatorId := Nat

/-- Block identifier (`Block::Id` in `ext.rs`, opaque fixed-shape id). -/
abbrev BlockId := Nat

/-- An opaque application block: the core only inspects `id()`; the `body` field
stands for the rest of the block so that block equality is not id equality. -/
structure Block where
  id : BlockId
  body : Nat
deriving DecidableEq, Repr

/-- `Step` from `machine/src/lib.rs` lines 38-43. -/
inductive Step where
  | Propose
  | Prevote
  | Precommit
deriving DecidableEq, Repr

/-- A signature, modelled symbolically as (claimed signer, signed bytes). -/
abbrev Signature := Nat × List Nat

/-- `Data` from `machine/src/lib.rs` lines 45-50. -/
inductive Data where
  | Proposal (vr : Option Nat) (b : Block)
  | Prevote (i : Option BlockId)
  | Precommit (p : Option (BlockId × Signature))
deriving DecidableEq, Repr

/-- The `PartialEq for Data` impl from `machine/src/lib.rs` lines 52-62: proposals
compare valid-round and block, prevotes compare the optional id, precommits compare
only the optional id (ignoring the signature), and distinct variants are unequal. -/
def Data.eq : Data → Data → Bool
  | .Proposal r b, .Proposal r2 b2 => decide (r = r2) && decide (b = b2)
  | .Prevote i, .Prevote i2 => decide (i = i2)
  | .Precommit none, .Precommit none => true
  | .Precommit (some (i, _)), .Precommit (some (i2, _)) => decide (i = i2)
  | _, _ => false

/-- `Data::step` from `machine/src/lib.rs` lines 64-72. -/
def Data.step : Data → Step
  | .Proposal _ _ => .Propose
  | .Prevote _ => .Prevote
  | .Precommit _ => .Precommit

/-- Discriminator for `matches!(msg.data, Data::Proposal(..))`. -/
def Data.isProposal : Data → Bool
  | .Proposal _ _ => true
  | _ => false

/-- Discriminator for `matches!(msg.data, Data::Prevote(_))`. -/
def Data.isPrevote : Data → Bool
  | .Prevote _ => true
  | _ => false

/-- Discriminator for `matches!(msg.data, Data::Precommit(_))`. -/
def Data.isPrecommit : Data → Bool
  | .Precommit _ => true
  | _ => false

/-- `Message` from `machine/src/lib.rs` lines 74-82 (`number` is the block number,
`round` the round number; the nominal wrappers `BlockNumber`/`RoundNumber` are
flattened to `Nat`). -/
structure Message where
  sender : ValidatorId
  number : Nat
  round : Nat
  data : Data
deriving DecidableEq, Repr

/-- `TendermintError` from `machine/src/lib.rs` lines 106-110. -/
inductive TendermintError where
  | Malicious (v : ValidatorId)
  | Temporal
deriving DecidableEq, Repr

/-- `BlockError` from `ext.rs` lines 15-21. -/
inductive BlockError where
  | Fatal
  | Temporal
deriving DecidableEq, Repr

/-- The distinct panic sites of the embedded code (Rust `panic!`, `unwrap`, and
`HashMap` indexing with a missing key); `outOfFuel` marks exhaustion of the fuel
used to model the unbounded search loop of `reset_by_commit` and is never a panic
of the source. -/
inductive PanicKind where
  | logRoundMissing
  | endTimeMissing
  | roundUnwrap
  | commitPredates
  | outOfFuel
deriving DecidableEq, Repr

/-- Result of one `message` call: a source panic, a `TendermintError`, or the
`Ok` payload. -/
inductive MRes (α : Type) where
  | panic (k : PanicKind)
  | err (e : TendermintError)
  | ok (a : α)
deriving DecidableEq, Repr

/-- `Weights` from `ext.rs` lines 29-43: total weight, per-validator weight and the
deterministic weighted round-robin proposer function of (block number, round). -/
structure Weights where
  total : Nat
  weight : ValidatorId → Nat
  proposer : Nat → Nat → ValidatorId

/-- `Weights::threshold` from `ext.rs` lines 34-36. -/
def Weights.threshold (w : Weights) : Nat :=
  w.total * 2 / 3 + 1

/-- `Weights::fault_thresold` from `ext.rs` lines 37-39 (source spelling kept). -/
def Weights.fault_thresold (w : Weights) : Nat :=
  w.total - w.threshold + 1

/-- `commit_msg` from `machine/src/lib.rs` lines 34-36: little-endian `u64` end
time followed by the block-id bytes (the id is opaque; its byte string is modelled
as the one-element list). -/
def commit_msg (endTime : Nat) (id : BlockId) : List Nat :=
  (List.range 8).map (fun i => endTime / 256 ^ i % 256) ++ [id]

/-- Association-list lookup, modelling `HashMap::get`. -/
def lookupA {κ α : Type} [DecidableEq κ] : List (κ × α) → κ → Option α
  | [], _ => none
  | (k', v) :: t, k => if k' = k then some v else lookupA t k

/-- Association-list insert-or-replace, modelling `HashMap::insert`. -/
def insertA {κ α : Type} [DecidableEq κ] : List (κ × α) → κ → α → List (κ × α)
  | [], k, v => [(k, v)]
  | (k', v') :: t, k, v => if k' = k then (k, v) :: t else (k', v') :: insertA t k v

/-- `MessageLog` from `src/substrate/tendermint/src/message_log.rs` lines 5-18.
The `weights` field (an `Arc` in the source) is passed to the operations as an
explicit argument instead of being stored. -/
structure MessageLog where
  precommitted : List (ValidatorId × (BlockId × Signature))
  log : List (Nat × List (ValidatorId × List (Step × Data)))
deriving DecidableEq, Repr

/-- `MessageLog::new` from `message_log.rs` lines 21-23. -/
def MessageLog.new : MessageLog := ⟨[], []⟩

/-- `MessageLog::log` from `message_log.rs` lines 26-54 (named `logMsg` because the
structure field is already called `log`).  Returns `Ok true` for a genuinely new
message, `Ok false` for a replay equal under `Data.eq`, and `Malicious(sender)`
for a differing message at the same (round, sender, step) or a precommit whose id
conflicts with the sender's recorded precommit id.  The two `entry().or_insert`
calls of the source insert empty maps before any check; the returned log reflects
that. -/
def MessageLog.logMsg (l : MessageLog) (msg : Message) : Except TendermintError Bool × MessageLog :=
  let roundMap := (lookupA l.log msg.round).getD []
  let msgs := (lookupA roundMap msg.sender).getD []
  let stp := msg.data.step
  let put : List (Step × Data) → MessageLog := fun msgs2 =>
    { l with log := insertA l.log msg.round (insertA roundMap msg.sender msgs2) }
  match lookupA msgs stp with
  | some existing =>
    if existing.eq msg.data then (.ok false, put msgs)
    else (.error (.Malicious msg.sender), put msgs)
  | none =>
    match msg.data with
    | .Precommit (some (hash, sig)) =>
      match lookupA l.precommitted msg.sender with
      | some (prev, _) =>
        if hash ≠ prev then (.error (.Malicious msg.sender), put msgs)
        else
          (.ok true,
           { put (insertA msgs stp msg.data) with
             precommitted := insertA l.precommitted msg.sender (hash, sig) })
      | none =>
        (.ok true,
         { put (insertA msgs stp msg.data) with
           precommitted := insertA l.precommitted msg.sender (hash, sig) })
    | _ => (.ok true, put (insertA msgs stp msg.data))

/-- `MessageLog::message_instances` from `message_log.rs` lines 58-75: sums the
weights of all senders with any message at `data.step()` in `round`, and of those
whose message equals `data` under `Data.eq`.  The source indexes `self.log[&round]`
directly, panicking when the round has no entry: that case is `none`. -/
def MessageLog.message_instances (w : Weights) (l : MessageLog) (round : Nat) (data : Data) :
    Option (Nat × Nat) :=
  match lookupA l.log round with
  | none => none
  | some participants =>
    some (participants.foldl
      (fun acc p =>
        match lookupA p.2 data.step with
        | some m =>
          (acc.1 + w.weight p.1, acc.2 + if data.eq m then w.weight p.1 else 0)
        | none => acc)
      (0, 0))

/-- `MessageLog::round_participation` from `message_log.rs` lines 78-86 (uses
`HashMap::get`, hence total). -/
def MessageLog.round_participation (w : Weights) (l : MessageLog) (round : Nat) : Nat :=
  match lookupA l.log round with
  | none => 0
  | some participants => participants.foldl (fun acc p => acc + w.weight p.1) 0

/-- `MessageLog::has_consensus` from `message_log.rs` lines 89-96 (inherits the
panic of `message_instances` as `none`). -/
def MessageLog.has_consensus (w : Weights) (l : MessageLog) (round : Nat) (data : Data) :
    Option Bool :=
  (l.message_instances w round data).map fun pw => decide (w.threshold ≤ pw.2)

/-- `MessageLog::get` from `message_log.rs` lines 98-105. -/
def MessageLog.get (l : MessageLog) (round : Nat) (sender : ValidatorId) (stp : Step) :
    Option Data :=
  (lookupA l.log round).bind fun r => (lookupA r sender).bind fun msgs => lookupA msgs stp

/-- Modelled from the spec: `MessageLog::has_participation` (the machine's copy of
the message log is absent from `src/`; only `message_log.rs` of the earlier crate
is present, which lacks this method).  Per the spec's step 47-48, it checks whether
the total weight of senders with a message at `step` in `round` reaches
`threshold()`. -/
def MessageLog.has_participation (w : Weights) (l : MessageLog) (round : Nat) (stp : Step) :
    Bool :=
  let participants := (lookupA l.log round).getD []
  let participating := participants.foldl
    (fun acc p => match lookupA p.2 stp with
      | some _ => acc + w.weight p.1
      | none => acc) 0
  decide (w.threshold ≤ participating)

/-- Modelled from the spec: the round state (`machine/src/round.rs` is absent from
`src/`).  Per spec section 4.2/3, a round holds its number, its canonical start
time, the current step and the set of armed per-step timeouts (deadline values are
dropped; only armed-ness is observable to the verified claims). -/
structure RoundData where
  number : Nat
  start : Nat
  step : Step
  timeouts : List Step
deriving DecidableEq, Repr

/-- Modelled from the spec: a fresh round starts at step `Propose` with no armed
timeouts. -/
def RoundData.new (number start : Nat) : RoundData :=
  { number := number, start := start, step := .Propose, timeouts := [] }

/-- Modelled from the spec, section 4.2: the round end time is
`start(r) + (BLOCK_TIME + 2*(r+1))` seconds (canonical). -/
def RoundData.end_time (rd : RoundData) (blockTime : Nat) : Nat :=
  rd.start + blockTime + 2 * (rd.number + 1)

/-- Modelled from the spec: arm the timeout for a step if it is not armed yet
(the source uses a `HashMap<Step, Instant>` entry). -/
def RoundData.set_timeout (rd : RoundData) (s : Step) : RoundData :=
  if s ∈ rd.timeouts then rd else { rd with timeouts := rd.timeouts ++ [s] }

/-- `BlockData` from `machine/src/block.rs` lines 10-23.  `end_time` maps a round
number to the canonical seconds of that round's end (`CanonicalInstant` is
represented by its `canonical()` value). -/
structure BlockData where
  number : Nat
  validator_id : Option ValidatorId
  proposal : Block
  log : MessageLog
  slashes : List ValidatorId
  end_time : List (Nat × Nat)
  round : Option RoundData
  locked : Option (Nat × BlockId)
  valid : Option (Nat × Block)
deriving DecidableEq, Repr

/-- The mutable state of `TendermintMachine` relevant to the claims: the pending
outgoing queue and the per-height `BlockData` (`machine/src/lib.rs` lines 113-127;
the channels and network handles live in `Env`). -/
structure Machine where
  queue : List Message
  block : BlockData
deriving DecidableEq, Repr

/-- The external collaborators of the machine, as pure functions: `BLOCK_TIME`,
the weights, the local signer's id (`Signer::validator_id`), `Signer::sign`,
`SignatureScheme::verify` and `Network::validate` (`none` is `Ok`, per the spec
these interfaces are infallible and `validate` is pure at call time). -/
structure Env where
  blockTime : Nat
  weights : Weights
  validatorId : Option ValidatorId
  sign : List Nat → Signature
  verify : ValidatorId → List Nat → Signature → Bool
  validate : Block → Option BlockError

/-- `TendermintMachine::broadcast` from `machine/src/lib.rs` lines 152-166: only
nodes holding a validator id update the step and enqueue; the source unwraps
`block.round`, which is set before every call site, so the `none` case (returning
`m` unchanged) is unreachable there. -/
def Machine.broadcast (m : Machine) (data : Data) : Machine :=
  match m.block.validator_id with
  | none => m
  | some v =>
    match m.block.round with
    | none => m
    | some rd =>
      { m with
        block := { m.block with round := some { rd with step := data.step } }
        queue := m.queue ++ [{ sender := v, number := m.block.number, round := rd.number, data := data }] }

/-- Arm a timeout on the current round (`self.block.round_mut().set_timeout(step)`;
the `none` case is unreachable at the call sites, as for `broadcast`). -/
def Machine.setTimeout (m : Machine) (s : Step) : Machine :=
  match m.block.round with
  | none => m
  | some rd => { m with block := { m.block with round := some (rd.set_timeout s) } }

/-- `TendermintMachine::slash` from `machine/src/lib.rs` lines 260-265: record the
validator in the height's slash set (and call `Network::slash`, an external
effect) only on first occurrence. -/
def Machine.slash (m : Machine) (v : ValidatorId) : Machine :=
  if v ∈ m.block.slashes then m
  else { m with block := { m.block with slashes := m.block.slashes ++ [v] } }

/-- Replace the message log (the in-place mutation `self.block.log`). -/
def Machine.setLog (m : Machine) (l : MessageLog) : Machine :=
  { m with block := { m.block with log := l } }

/-- The loop body of `populate_end_time` (`machine/src/lib.rs` lines 168-175),
iterating `count` times from round `r`: each round's end time is
`RoundData::new(r, end_time[r-1]).end_time()`, and the source indexes
`end_time[&(r-1)]`, panicking when absent. -/
def populateFrom (blockTime : Nat) (et : List (Nat × Nat)) (r : Nat) :
    Nat → Except PanicKind (List (Nat × Nat))
  | 0 => .ok et
  | c + 1 =>
    match lookupA et (r - 1) with
    | none => .error .endTimeMissing
    | some prev => populateFrom blockTime (insertA et r ((RoundData.new r prev).end_time blockTime)) (r + 1) c

/-- `TendermintMachine::populate_end_time` from `machine/src/lib.rs` lines
168-175: fill `end_time` for rounds `current+1` up to and excluding `round`
(Rust `a..b` is half-open). -/
def populate_end_time (blockTime : Nat) (b : BlockData) (round : Nat) :
    Except PanicKind BlockData :=
  match b.round with
  | none => .error .roundUnwrap
  | some rd =>
    (populateFrom blockTime b.end_time (rd.number + 1) (round - (rd.number + 1))).map
      fun et => { b with end_time := et }

/-- `TendermintMachine::round` from `machine/src/lib.rs` lines 178-206: populate
skipped end times, install the new `RoundData` (starting at `time`, or at the end
of the previous round), record its end time, then either broadcast our proposal
(using `valid` if set) and return `true`, or arm the propose timeout and return
`false`. -/
def roundFn (env : Env) (m : Machine) (round : Nat) (time : Option Nat) :
    Except PanicKind (Bool × Machine) :=
  match (if round ≠ 0 then populate_end_time env.blockTime m.block round else .ok m.block) with
  | .error k => .error k
  | .ok b =>
    match (match time with
            | some t => Except.ok t
            | none =>
              match lookupA b.end_time (round - 1) with
              | some t => Except.ok t
              | none => Except.error PanicKind.endTimeMissing) with
    | .error k => .error k
    | .ok start =>
      let rd := RoundData.new round start
      let b2 := { b with round := some rd,
                         end_time := insertA b.end_time round (rd.end_time env.blockTime) }
      let m2 : Machine := { m with block := b2 }
      if some (env.weights.proposer b2.number round) = b2.validator_id then
        let pair := match b2.valid with
          | some (r, bl) => (some r, bl)
          | none => (none, b2.proposal)
        .ok (true, m2.broadcast (.Proposal pair.1 pair.2))
      else
        .ok (false, m2.setTimeout .Propose)

/-- `TendermintMachine::reset` from `machine/src/lib.rs` lines 209-239: ensure the
end time of `endRound` is known, (sleep until it — timing dropped), filter the
pending queue by `msg.number == self.block.number` — note `self.block` still holds
the OLD height at that point — then install a fresh `BlockData` for `height+1` and
start round 0 at the old round's end. -/
def reset (env : Env) (m : Machine) (endRound : Nat) (proposal : Block) :
    Except PanicKind Machine :=
  match populate_end_time env.blockTime m.block endRound with
  | .error k => .error k
  | .ok b =>
    match lookupA b.end_time endRound with
    | none => .error .endTimeMissing
    | some roundEnd =>
      let queue := m.queue.filter fun qmsg => decide (qmsg.number = b.number)
      let b2 : BlockData :=
        { number := b.number + 1, validator_id := env.validatorId, proposal := proposal,
          log := MessageLog.new, slashes := [], end_time := [], round := none,
          locked := none, valid := none }
      match roundFn env { queue := queue, block := b2 } 0 (some roundEnd) with
      | .error k => .error k
      | .ok res => .ok res.2

/-- A commit, modelled from the spec (the machine's `ext.rs` carrying `Commit` is
absent from `src/`): canonical end time of the finalizing round, the listed
validators, and the aggregate of their precommit signatures. -/
structure Commit where
  end_time : Nat
  validators : List ValidatorId
  signature : List Signature
deriving DecidableEq, Repr

/-- Modelled from the spec: `SignatureScheme::aggregate`, an order-independent
batch aggregation; the aggregate is represented as the list of signatures. -/
def aggregate (sigs : List Signature) : List Signature := sigs

/-- The first search loop of `reset_by_commit` (`machine/src/lib.rs` lines
244-247): while the cached end time of `round` predates the commit's, step the
round forward, populating the end-time map; the map index `end_time[&round]`
panics when absent.  `fuel` bounds the recursion and is never exhausted in the
verified scenarios. -/
def rbcUp (env : Env) (m : Machine) (target : Nat) :
    Nat → Nat → Except PanicKind (Nat × Machine)
  | 0, _ => .error .outOfFuel
  | fuel + 1, r =>
    match lookupA m.block.end_time r with
    | none => .error .endTimeMissing
    | some t =>
      if t < target then
        match populate_end_time env.blockTime m.block (r + 1) with
        | .error k => .error k
        | .ok b => rbcUp env { m with block := b } target fuel (r + 1)
      else .ok (r, m)

/-- The second search loop of `reset_by_commit` (`machine/src/lib.rs` lines
249-254): while the cached end time exceeds the commit's, step backward; at round
0 the source panics (commit predates round 0 of this height). -/
def rbcDown (et : List (Nat × Nat)) (target : Nat) : Nat → Except PanicKind Nat
  | 0 =>
    match lookupA et 0 with
    | none => .error .endTimeMissing
    | some t => if target < t then .error .commitPredates else .ok 0
  | r + 1 =>
    match lookupA et (r + 1) with
    | none => .error .endTimeMissing
    | some t => if target < t then rbcDown et target r else .ok (r + 1)

/-- `TendermintMachine::reset_by_commit` from `machine/src/lib.rs` lines 241-258:
find the round whose canonical end time equals `commit.end_time`, searching
forward (populating) then backward, and `reset` to it. -/
def reset_by_commit (env : Env) (fuel : Nat) (m : Machine) (commit : Commit)
    (proposal : Block) : Except PanicKind Machine :=
  match m.block.round with
  | none => Except.error PanicKind.roundUnwrap
  | some rd =>
    match rbcUp env m commit.end_time fuel rd.number with
    | .error k => .error k
    | .ok up =>
      match rbcDown up.2.block.end_time commit.end_time up.1 with
      | .error k => .error k
      | .ok r2 => reset env up.2 r2 proposal

/-- `TendermintMachine::new` from `machine/src/lib.rs` lines 271-329: build the
`BlockData` for height `lastNumber+1` and start round 0 at the previous height's
canonical end time `lastTime`. -/
def newMachine (env : Env) (lastNumber lastTime : Nat) (proposal : Block) :
    Except PanicKind Machine :=
  let b : BlockData :=
    { number := lastNumber + 1, validator_id := env.validatorId, proposal := proposal,
      log := MessageLog.new, slashes := [], end_time := [], round := none,
      locked := none, valid := none }
  match roundFn env { queue := [], block := b } 0 (some lastTime) with
  | .error k => .error k
  | .ok res => .ok res.2

/-- `TendermintMachine::verify_precommit_signature` from `machine/src/lib.rs`
lines 439-457: for `Precommit(Some((id, sig)))`, verify `sig` over
`commit_msg(end_time[round].canonical(), id)` only when `end_time[round]` is
already cached; otherwise (and for all other data) accept. -/
def verify_precommit_signature (env : Env) (b : BlockData) (sender : ValidatorId)
    (round : Nat) (data : Data) : Except TendermintError Unit :=
  match data with
  | .Precommit (some (id, sig)) =>
    match lookupA b.end_time round with
    | some endTime =>
      if env.verify sender (commit_msg endTime id) sig then .ok ()
      else .error (.Malicious sender)
    | none => .ok ()
  | _ => .ok ()

/-- The commit-assembly branch of `TendermintMachine::run` (`machine/src/lib.rs`
lines 401-419), entered on `message(...) = Ok(Some(block))`: collect from the
`precommitted` registry every (validator, signature) whose recorded id equals
`block.id()`, aggregate the signatures, and stamp the commit with
`end_time[&msg.round].canonical()` (a panicking map index). -/
def assembleCommit (b : BlockData) (msgRound : Nat) (blk : Block) :
    Except PanicKind Commit :=
  let pairs := b.log.precommitted.filter fun p => decide (p.2.1 = blk.id)
  match lookupA b.end_time msgRound with
  | none => .error .endTimeMissing
  | some t =>
    .ok { end_time := t, validators := pairs.map Prod.fst,
          signature := aggregate (pairs.map fun p => p.2.2) }

/-- Modelled from the spec, sections 6 and 8: an aggregate verifies under the
listed validators against a byte string iff it pairs each listed validator with a
signature of theirs over those bytes. -/
def verifyAggregate (verify : ValidatorId → List Nat → Signature → Bool)
    (validators : List ValidatorId) (bytes : List Nat) (agg : List Signature) : Bool :=
  decide (validators.length = agg.length) &&
    (validators.zip agg).all fun p => verify p.1 bytes p.2

/-- Modelled from the spec: `Network::verify_commit(block_id, commit)` — the
aggregate verifies against `commit_msg(end_time, block_id)` and the listed
validators' weights reach `threshold()`. -/
def verify_commit (w : Weights) (verify : ValidatorId → List Nat → Signature → Bool)
    (id : BlockId) (c : Commit) : Bool :=
  decide (w.threshold ≤ (c.validators.map w.weight).sum) &&
    verifyAggregate verify c.validators (commit_msg c.end_time id) c.signature

/-- The idealized signature scheme used for concrete scenarios: a signature is
valid for a validator over some bytes exactly when it is that pair. -/
def idealVerify : ValidatorId → List Nat → Signature → Bool :=
  fun v bytes s => decide (s = (v, bytes))

/-- The finalizer, steps 49-52 of `message` (`machine/src/lib.rs` lines 485-500):
for a proposal or precommit, if the round's proposer's proposal is logged and the
matching precommits reach `threshold()` (compared with a junk signature, since
`Data` equality disregards it), return the block. -/
def finalizer (env : Env) (m : Machine) (msg : Message) : Except PanicKind (Option Block) :=
  if msg.data.isProposal = true ∨ msg.data.isPrecommit = true then
    let proposer := env.weights.proposer m.block.number msg.round
    match m.block.log.get msg.round proposer .Propose with
    | some (.Proposal _ block) =>
      match m.block.log.has_consensus env.weights msg.round
          (.Precommit (some (block.id, env.sign []))) with
      | none => .error .logRoundMissing
      | some true => .ok (some block)
      | some false => .ok none
    | _ => .ok none
  else .ok none

/-- Steps 22-33 and 36-43 of `message` (`machine/src/lib.rs` lines 556-635),
reached with the current round equal to `msg.round`. -/
def stage2233 (env : Env) (m : Machine) (msg : Message) : MRes (Option Block) × Machine :=
  match m.block.round with
  | none => (.panic .roundUnwrap, m)
  | some rd =>
    let proposer := env.weights.proposer m.block.number rd.number
    match m.block.log.get rd.number proposer .Propose with
    | some (.Proposal vr block) =>
      if rd.step = Step.Propose then
        -- 22-33; error handling (the slash) is deferred until after voting
        let validRes := env.validate block
        let valid : Bool := decide (validRes = none)
        let errRes : Option TendermintError :=
          match validRes with
          | some .Fatal => some (.Malicious proposer)
          | _ => none
        let raw_vote : Option BlockId := if valid then some block.id else none
        let lockedOk : Bool :=
          match m.block.locked with
          | none => true
          | some (_, id) => decide (id = block.id)
        let vote : Option BlockId := if lockedOk then raw_vote else none
        match vr with
        | some vrN =>
          if rd.number ≤ vrN then (.err (.Malicious msg.sender), m)
          else
            match m.block.log.has_consensus env.weights vrN (.Prevote (some block.id)) with
            | none => (.panic .logRoundMissing, m)
            | some true =>
              let vote2 : Option BlockId :=
                match m.block.locked with
                | some (lockedRound, _) =>
                  vote.orElse fun _ => if lockedRound ≤ vrN then raw_vote else none
                | none => vote
              let res : MRes (Option Block) :=
                match errRes with
                | some e => .err e
                | none => .ok none
              (res, m.broadcast (.Prevote vote2))
            | some false => (.ok none, m)
        | none =>
          let res : MRes (Option Block) :=
            match errRes with
            | some e => .err e
            | none => .ok none
          (res, m.broadcast (.Prevote vote))
      else if (match m.block.valid with
                | some (r, _) => decide (r ≠ rd.number)
                | none => true) = true then
        -- 36-43
        match m.block.log.has_consensus env.weights rd.number (.Prevote (some block.id)) with
        | none => (.panic .logRoundMissing, m)
        | some true =>
          match env.validate block with
          | some .Fatal => (.err (.Malicious proposer), m)
          | _ =>
            let m2 := { m with block := { m.block with valid := some (rd.number, block) } }
            if rd.step = Step.Prevote then
              let m3 := { m2 with block := { m2.block with locked := some (rd.number, block.id) } }
              match lookupA m3.block.end_time rd.number with
              | none => (.panic .endTimeMissing, m3)
              | some et =>
                (.ok none,
                 m3.broadcast (.Precommit (some (block.id, env.sign (commit_msg et block.id)))))
            else (.ok none, m2)
        | some false => (.ok none, m)
      else (.ok none, m)
    | _ => (.ok none, m)

/-- Step 47-48 of `message` (`machine/src/lib.rs` lines 549-554): a precommit with
precommit participation at `threshold()` arms the precommit timeout. -/
def stage4748 (env : Env) (m : Machine) (msg : Message) : MRes (Option Block) × Machine :=
  match m.block.round with
  | none => (.panic .roundUnwrap, m)
  | some rd =>
    if msg.data.isPrecommit = true ∧
        m.block.log.has_participation env.weights rd.number .Precommit = true then
      stage2233 env (m.setTimeout .Precommit) msg
    else stage2233 env m msg

/-- Steps 34-35 and 44-46 of `message` (`machine/src/lib.rs` lines 531-547): at
step `Prevote`, on a prevote, arm the prevote timeout when prevote participation
reaches `threshold()`, and broadcast `Precommit(None)` returning `Ok(None)` when
the weight of `Prevote(None)` reaches `threshold()`. -/
def stage346 (env : Env) (m : Machine) (msg : Message) : MRes (Option Block) × Machine :=
  match m.block.round with
  | none => (.panic .roundUnwrap, m)
  | some rd =>
    if rd.step = Step.Prevote ∧ msg.data.isPrevote = true then
      match m.block.log.message_instances env.weights rd.number (.Prevote none) with
      | none => (.panic .logRoundMissing, m)
      | some (participation, weight) =>
        let m1 := if env.weights.threshold ≤ participation then m.setTimeout .Prevote else m
        if env.weights.threshold ≤ weight then
          (.ok none, m1.broadcast (.Precommit none))
        else stage4748 env m1 msg
    else stage4748 env m msg

/-- The deferred-precommit re-verification loop of the round jump
(`machine/src/lib.rs` lines 511-519): over a snapshot of the round's messages,
slash every validator whose logged precommit fails
`verify_precommit_signature` (which consults the — at this point still
unpopulated — `end_time[msg.round]`). -/
def reverify (env : Env) (m : Machine) (round : Nat)
    (roundMsgs : List (ValidatorId × List (Step × Data))) : Machine :=
  roundMsgs.foldl
    (fun m p =>
      match lookupA p.2 Step.Precommit with
      | some data =>
        match verify_precommit_signature env m.block p.1 round data with
        | .error _ => m.slash p.1
        | .ok _ => m
      | none => m)
    m

/-- The round-skip logic of `message`, steps 55-56 (`machine/src/lib.rs` lines
502-529): disregard prior rounds; for a future round, jump (re-verifying logged
precommits) only when its participation exceeds `fault_thresold()`, returning
early when we become the proposer. -/
def messageRound (env : Env) (m : Machine) (msg : Message) : MRes (Option Block) × Machine :=
  match m.block.round with
  | none => (.panic .roundUnwrap, m)
  | some rd =>
    if msg.round < rd.number then (.ok none, m)
    else if rd.number < msg.round then
      if env.weights.fault_thresold < m.block.log.round_participation env.weights msg.round then
        match lookupA m.block.log.log msg.round with
        | none => (.panic .logRoundMissing, m)
        | some roundMsgs =>
          let m1 := reverify env m msg.round roundMsgs
          match roundFn env m1 msg.round none with
          | .error k => (.panic k, m1)
          | .ok (true, m2) => (.ok none, m2)
          | .ok (false, m2) => stage346 env m2 msg
      else (.ok none, m)
    else stage346 env m msg

/-- `TendermintMachine::message` from `machine/src/lib.rs` lines 459-638: height
check, precommit signature verification, proposer check, logging, the finalizer,
the round skip, and the per-round vote logic. -/
def message (env : Env) (m : Machine) (msg : Message) : MRes (Option Block) × Machine :=
  if msg.number ≠ m.block.number then (.err .Temporal, m)
  else
    match verify_precommit_signature env m.block msg.sender msg.round msg.data with
    | .error e => (.err e, m)
    | .ok _ =>
      if msg.data.isProposal = true ∧ msg.sender ≠ env.weights.proposer msg.number msg.round then
        (.err (.Malicious msg.sender), m)
      else
        match m.block.log.logMsg msg with
        | (.error e, l2) => (.err e, m.setLog l2)
        | (.ok false, l2) => (.ok none, m.setLog l2)
        | (.ok true, l2) =>
          let m1 := m.setLog l2
          match finalizer env m1 msg with
          | .error k => (.panic k, m1)
          | .ok (some b) => (.ok (some b), m1)
          | .ok none => messageRound env m1 msg

/-- Fold `message` over a list of inbound messages, keeping the machine state
(the event loop's repeated dispatch, ignoring the per-message results). -/
def applyMsgs (env : Env) (m : Machine) (msgs : List Message) : Machine :=
  msgs.foldl (fun m msg => (message env m msg).2) m

/-- Extract the value of a non-panicking computation (used only to name concrete
machines; the accompanying theorems also assert the computation succeeded). -/
def okOr {α : Type} (e : Except PanicKind α) (d : α) : α :=
  match e with
  | .ok a => a
  | .error _ => d

/-- Fold `message` over a message list, also collecting the per-message results
(used to exhibit that every step of a scenario is handled without error). -/
def applyMsgsResults (env : Env) (m : Machine) (msgs : List Message) :
    Machine × List (MRes (Option Block)) :=
  msgs.foldl (fun acc msg =>
    let r := message env acc.1 msg
    (r.2, acc.2 ++ [r.1])) (m, [])

/-- The precommit-registry conflict checked by `MessageLog::log` lines 42-48: the
message is a precommit whose id differs from the sender's recorded precommit id
for the height. -/
def precommitConflict (l : MessageLog) (msg : Message) : Bool :=
  match msg.data, lookupA l.precommitted msg.sender with
  | .Precommit (some (hash, _)), some (prev, _) => decide (hash ≠ prev)
  | _, _ => false

/-! ## Concrete scenario material

A network of four validators `0, 1, 2, 3`, each of weight 1 (total 4, so
`threshold() = 3` and `fault_thresold() = 2`), with validator `0` the proposer of
every round, `BLOCK_TIME = 6`, the idealized signature scheme, and a local node
that is a non-validating observer.  The machine is started for height 1 from
`last = (0, 100)`, so round 0 of height 1 has canonical end time
`100 + 6 + 2 = 108`, round 1 ends at `108 + 6 + 4 = 118` and round 2 at
`118 + 6 + 6 = 130`. -/

/-- Four equal-weight validators; validator 0 proposes every round. -/
def wEq4 : Weights := { total := 4, weight := fun _ => 1, proposer := fun _ _ => 0 }

/-- Observer environment over `wEq4` with the idealized scheme and an always-`Ok`
`validate`. -/
def envObs : Env :=
  { blockTime := 6, weights := wEq4, validatorId := none,
    sign := fun bytes => (500, bytes), verify := idealVerify,
    validate := fun _ => none }

/-- The block proposed throughout the scenarios, with id 7. -/
def blockX : Block := { id := 7, body := 0 }

/-- Placeholder block data for `okOr` (the accompanying theorems also assert that
the computations producing the real machines succeed). -/
def junkBlockData : BlockData :=
  { number := 0, validator_id := none, proposal := blockX,
    log := MessageLog.new, slashes := [], end_time := [], round := none,
    locked := none, valid := none }

/-- Placeholder machine for `okOr`. -/
def junkMachine : Machine :=
  { queue := [], block := junkBlockData }

/-- The observer machine at height 1, round 0 (started from `last = (0, 100)`). -/
def mStart : Machine := okOr (newMachine envObs 0 100 blockX) junkMachine

/-- Three prevotes tagged round 2: on the third, participation (3) exceeds
`fault_thresold()` (2) and the machine jumps from round 0 straight to round 2,
never logging anything for round 1. -/
def c2Jump : List Message :=
  [⟨1, 1, 2, .Prevote (some 7)⟩, ⟨2, 1, 2, .Prevote (some 7)⟩, ⟨3, 1, 2, .Prevote (some 7)⟩]

/-- The machine after the round-0-to-round-2 jump. -/
def c2Pre : Machine := applyMsgs envObs mStart c2Jump

/-- A proposal for the current round 2 from its correct proposer, carrying
`valid_round = Some(1)` — a round the local log has no entry for. -/
def c2Prop : Message := ⟨0, 1, 2, .Proposal (some 1) blockX⟩

/-- The commit delivered on the step channel: its end time 118 is exactly the
canonical end of round 1 (`end_time[0] = 108` plus `BLOCK_TIME + 2*(1+1)`). -/
def c3Commit : Commit := { end_time := 118, validators := [], signature := [] }

/-- An outgoing message queued at the old height 1. -/
def c4Msg : Message := ⟨1, 1, 0, .Prevote none⟩

/-- The machine about to reset, with `c4Msg` pending in the outgoing queue. -/
def c4Mq : Machine := { mStart with queue := [c4Msg] }

/-- The machine after `reset(0, blockX)`. -/
def c4Post : Machine := okOr (reset envObs c4Mq 0 blockX) junkMachine

/-- A precommit for round 2 carrying a signature that is valid for no validator
and no message under the idealized scheme, followed by two round-2 prevotes that
push participation past `fault_thresold()` and trigger the jump. -/
def c8Msgs : List Message :=
  [⟨1, 1, 2, .Precommit (some (7, (9, [])))⟩,
   ⟨2, 1, 2, .Prevote (some 7)⟩, ⟨3, 1, 2, .Prevote (some 7)⟩]

/-- The machine after the deferred precommit and the jump to round 2. -/
def c8Post : Machine := applyMsgs envObs mStart c8Msgs

/-- Height 1 unfolds as: round 0 — proposer 0 proposes `blockX`, validator 3
precommits it (signature over `commit_msg(108, 7)`, valid for round 0); round 1 —
proposer 0 re-proposes, prevotes from 1 and 2 trigger the jump to round 1
(canonical end 118), then validators 1 and 2 precommit with round-1 signatures. -/
def c1Msgs : List Message :=
  [⟨0, 1, 0, .Proposal none blockX⟩,
   ⟨3, 1, 0, .Precommit (some (7, (3, commit_msg 108 7)))⟩,
   ⟨0, 1, 1, .Proposal none blockX⟩,
   ⟨1, 1, 1, .Prevote (some 7)⟩,
   ⟨2, 1, 1, .Prevote (some 7)⟩,
   ⟨1, 1, 1, .Precommit (some (7, (1, commit_msg 118 7)))⟩,
   ⟨2, 1, 1, .Precommit (some (7, (2, commit_msg 118 7)))⟩]

/-- The machine just before the finalizing precommit. -/
def c1Pre : Machine := applyMsgs envObs mStart c1Msgs

/-- Validator 0's round-1 precommit: the third matching precommit at round 1,
reaching `threshold() = 3` and finalizing the height. -/
def c1Clinch : Message := ⟨0, 1, 1, .Precommit (some (7, (0, commit_msg 118 7)))⟩

/-- The machine state from which `run` assembles the commit. -/
def c1Post : Machine := (message envObs c1Pre c1Clinch).2

/-- The commit assembled by `run`'s `Ok(Some(block))` branch. -/
def c1Commit : Commit :=
  okOr (assembleCommit c1Post.block 1 blockX) { end_time := 0, validators := [], signature := [] }

/-- C5 witness material: the machine after two round-2 prevotes (round-2
participation 2 = `fault_thresold()`), still at round 0. -/
def c5Pre : Machine :=
  applyMsgs envObs mStart [⟨1, 1, 2, .Prevote (some 7)⟩, ⟨2, 1, 2, .Prevote (some 7)⟩]

/-- The third round-2 prevote, lifting participation to `fault_thresold() + 1`. -/
def c5Msg : Message := ⟨3, 1, 2, .Prevote (some 7)⟩

/-- The log after recording `c5Msg`. -/
def c5Log : MessageLog := (c5Pre.block.log.logMsg c5Msg).2

/-- The round-0 round data of the started observer machine. -/
def rd0Start : RoundData := { number := 0, start := 100, step := .Propose, timeouts := [.Propose] }

/-- C6 witness material: the started machine with `locked` and `valid` recorded at
round 0. -/
def c6M : Machine :=
  { mStart with block := { mStart.block with locked := some (0, 7), valid := some (0, blockX) } }

/-- A height-1 prevote handled at the current round. -/
def c6Msg : Message := ⟨1, 1, 0, .Prevote (some 7)⟩

/-- C9 witness material: a round-0 round state sitting at step `Prevote` with no
armed timeouts. -/
def c9RD : RoundData := { number := 0, start := 100, step := .Prevote, timeouts := [] }

/-- A log holding nil-prevotes from validators 0 and 1 at round 0. -/
def c9Log : MessageLog :=
  { precommitted := [],
    log := [(0, [(0, [(Step.Prevote, Data.Prevote none)]),
                 (1, [(Step.Prevote, Data.Prevote none)])])] }

/-- A validator machine (local id 3) at step `Prevote` of round 0 with `c9Log`. -/
def c9M : Machine :=
  { queue := [],
    block := { number := 1, validator_id := some 3, proposal := blockX, log := c9Log,
               slashes := [], end_time := [(0, 108)], round := some c9RD,
               locked := none, valid := none } }

/-- Validator 2's nil-prevote: the third prevote, reaching `threshold()` exactly
for both participation and the weight of `Prevote(None)`. -/
def c9Msg : Message := ⟨2, 1, 0, .Prevote none⟩

/-- The log after recording `c9Msg`. -/
def c9Log2 : MessageLog := (c9M.block.log.logMsg c9Msg).2

/-! ## Frame lemmas about the machine operations -/

lemma lookupA_insertA_self {κ α : Type} [DecidableEq κ] (l : List (κ × α)) (k : κ) (v : α) :
    lookupA (insertA l k v) k = some v := by
  induction l with
  | nil => simp [insertA, lookupA]
  | cons h t ih =>
    obtain ⟨k', v'⟩ := h
    by_cases hk : k' = k
    · simp [insertA, hk, lookupA]
    · simp [insertA, hk, lookupA, ih]

lemma broadcast_locked (m : Machine) (d : Data) :
    (m.broadcast d).block.locked = m.block.locked := by
  unfold Machine.broadcast
  rcases m.block.validator_id with _ | v
  · rfl
  · rcases hr : m.block.round with _ | rd <;> simp [hr]

lemma broadcast_valid (m : Machine) (d : Data) :
    (m.broadcast d).block.valid = m.block.valid := by
  unfold Machine.broadcast
  rcases m.block.validator_id with _ | v
  · rfl
  · rcases hr : m.block.round with _ | rd <;> simp [hr]

lemma broadcast_round (m : Machine) (d : Data) (rd : RoundData)
    (h : m.block.round = some rd) :
    ∃ rd2, (m.broadcast d).block.round = some rd2 ∧
      rd2.number = rd.number ∧ rd2.timeouts = rd.timeouts := by
  unfold Machine.broadcast
  rcases m.block.validator_id with _ | v
  · exact ⟨rd, h, rfl, rfl⟩
  · simp only [h]
    exact ⟨_, rfl, rfl, rfl⟩

lemma setTimeout_locked (m : Machine) (s : Step) :
    (m.setTimeout s).block.locked = m.block.locked := by
  unfold Machine.setTimeout
  rcases hr : m.block.round with _ | rd <;> simp [hr]

lemma setTimeout_valid (m : Machine) (s : Step) :
    (m.setTimeout s).block.valid = m.block.valid := by
  unfold Machine.setTimeout
  rcases hr : m.block.round with _ | rd <;> simp [hr]

lemma setTimeout_round (m : Machine) (s : Step) (rd : RoundData)
    (h : m.block.round = some rd) :
    (m.setTimeout s).block.round = some (rd.set_timeout s) := by
  unfold Machine.setTimeout
  simp [h]

lemma set_timeout_number (rd : RoundData) (s : Step) :
    (rd.set_timeout s).number = rd.number := by
  unfold RoundData.set_timeout
  split <;> rfl

lemma set_timeout_mem_prevote (rd : RoundData) :
    (Step.Prevote ∈ (rd.set_timeout .Precommit).timeouts ↔ Step.Prevote ∈ rd.timeouts) := by
  unfold RoundData.set_timeout
  split <;> simp

lemma setTimeout_validator_id (m : Machine) (s : Step) :
    (m.setTimeout s).block.validator_id = m.block.validator_id := by
  unfold Machine.setTimeout
  rcases hr : m.block.round with _ | rd <;> simp [hr]

lemma setTimeout_queue (m : Machine) (s : Step) :
    (m.setTimeout s).queue = m.queue := by
  unfold Machine.setTimeout
  rcases hr : m.block.round with _ | rd <;> simp [hr]

lemma broadcast_queue (m : Machine) (d : Data) (v : ValidatorId) (rd : RoundData)
    (hv : m.block.validator_id = some v) (h : m.block.round = some rd) :
    (m.broadcast d).queue =
      m.queue ++ [{ sender := v, number := m.block.number, round := rd.number, data := d }] := by
  unfold Machine.broadcast
  simp [hv, h]

lemma slash_frame (m : Machine) (v : ValidatorId) :
    (m.slash v).block.locked = m.block.locked ∧
    (m.slash v).block.valid = m.block.valid ∧
    (m.slash v).block.round = m.block.round ∧
    (m.slash v).block.end_time = m.block.end_time ∧
    (m.slash v).block.number = m.block.number ∧
    (m.slash v).block.log = m.block.log := by
  unfold Machine.slash
  split <;> simp

lemma reverify_frame (env : Env) (m : Machine) (round : Nat)
    (msgs : List (ValidatorId × List (Step × Data))) :
    (reverify env m round msgs).block.locked = m.block.locked ∧
    (reverify env m round msgs).block.valid = m.block.valid ∧
    (reverify env m round msgs).block.round = m.block.round ∧
    (reverify env m round msgs).block.end_time = m.block.end_time ∧
    (reverify env m round msgs).block.number = m.block.number ∧
    (reverify env m round msgs).block.log = m.block.log := by
  induction msgs generalizing m with
  | nil => exact ⟨rfl, rfl, rfl, rfl, rfl, rfl⟩
  | cons p t ih =>
    have hstep : reverify env m round (p :: t) = reverify env
        (match lookupA p.2 Step.Precommit with
          | some data =>
            match verify_precommit_signature env m.block p.1 round data with
            | .error _ => m.slash p.1
            | .ok _ => m
          | none => m) round t := rfl
    rw [hstep]
    rcases hl : lookupA p.2 Step.Precommit with _ | data
    · simpa [hl] using ih m
    · rcases hv : verify_precommit_signature env m.block p.1 round data with e | u
      · have hs := slash_frame m p.1
        have hrest := ih (m.slash p.1)
        simp only [hl, hv]
        exact ⟨hs.1 ▸ hrest.1, hs.2.1 ▸ hrest.2.1, hs.2.2.1 ▸ hrest.2.2.1,
          hs.2.2.2.1 ▸ hrest.2.2.2.1, hs.2.2.2.2.1 ▸ hrest.2.2.2.2.1,
          hs.2.2.2.2.2 ▸ hrest.2.2.2.2.2⟩
      · simpa [hl, hv] using ih m

lemma logMsg_log_shape (l : MessageLog) (msg : Message) :
    ∃ x, ((l.logMsg msg).2).log = insertA l.log msg.round x := by
  unfold MessageLog.logMsg
  cases hl : lookupA ((lookupA ((lookupA l.log msg.round).getD []) msg.sender).getD [])
      msg.data.step with
  | some existing =>
    simp only [hl]
    cases he : existing.eq msg.data <;> simp [he]
  | none =>
    simp only [hl]
    cases hd : msg.data with
    | Precommit p =>
      cases p with
      | none => simp
      | some hs =>
        obtain ⟨hash, sig⟩ := hs
        cases hp : lookupA l.precommitted msg.sender with
        | none => simp [hp]
        | some pv =>
          obtain ⟨prev, psig⟩ := pv
          by_cases hne : hash = prev <;> simp [hp, hne]
    | Proposal vr b => simp
    | Prevote i => simp

lemma logMsg_round_present (l : MessageLog) (msg : Message) :
    ∃ rm, lookupA ((l.logMsg msg).2).log msg.round = some rm := by
  obtain ⟨x, hx⟩ := logMsg_log_shape l msg
  exact ⟨x, by rw [hx, lookupA_insertA_self]⟩

lemma exceptBind_ok {ε α β : Type} (a : α) (f : α → Except ε β) :
    (Except.ok a : Except ε α) >>= f = f a := rfl

lemma exceptBind_error {ε α β : Type} (e : ε) (f : α → Except ε β) :
    (Except.error e : Except ε α) >>= f = Except.error e := rfl

lemma exceptPure {ε α : Type} (a : α) : (pure a : Except ε α) = Except.ok a := rfl

lemma populate_frame (bt : Nat) (b : BlockData) (target : Nat) (b2 : BlockData)
    (h : populate_end_time bt b target = .ok b2) :
    b2.locked = b.locked ∧ b2.valid = b.valid ∧ b2.number = b.number ∧
    b2.log = b.log ∧ b2.round = b.round ∧ b2.validator_id = b.validator_id ∧
    b2.proposal = b.proposal := by
  unfold populate_end_time at h
  cases hr : b.round with
  | none => simp only [hr] at h; exact Except.noConfusion h
  | some rd =>
    simp only [hr] at h
    cases hp : populateFrom bt b.end_time (rd.number + 1) (target - (rd.number + 1)) with
    | error k => simp only [hp, Except.map] at h; exact Except.noConfusion h
    | ok et =>
      simp only [hp, Except.map] at h
      injection h with h
      subst h
      exact ⟨rfl, rfl, rfl, rfl, hr ▸ rfl, rfl, rfl⟩

lemma broadcast_number (m : Machine) (d : Data) :
    (m.broadcast d).block.number = m.block.number := by
  unfold Machine.broadcast
  rcases m.block.validator_id with _ | v
  · rfl
  · rcases hr : m.block.round with _ | rd <;> simp [hr]

lemma setTimeout_number (m : Machine) (s : Step) :
    (m.setTimeout s).block.number = m.block.number := by
  unfold Machine.setTimeout
  rcases hr : m.block.round with _ | rd <;> simp [hr]

lemma roundNumberOf_broadcast (m : Machine) (d : Data) :
    ((m.broadcast d).block.round).map RoundData.number =
      (m.block.round).map RoundData.number := by
  unfold Machine.broadcast
  rcases m.block.validator_id with _ | v
  · rfl
  · rcases hr : m.block.round with _ | rd <;> simp [hr]

lemma roundNumberOf_setTimeout (m : Machine) (s : Step) :
    ((m.setTimeout s).block.round).map RoundData.number =
      (m.block.round).map RoundData.number := by
  unfold Machine.setTimeout
  rcases hr : m.block.round with _ | rd <;> simp [hr, set_timeout_number]

lemma round_of_map_number (o : Option RoundData) (r : Nat)
    (h : o.map RoundData.number = some r) : ∃ rd2, o = some rd2 ∧ rd2.number = r := by
  cases o with
  | none => exact absurd h (by simp)
  | some rd => exact ⟨rd, rfl, by simpa using h⟩

lemma roundFn_ok_frame (env : Env) (m : Machine) (r : Nat) (t : Option Nat)
    (flag : Bool) (m2 : Machine) (h : roundFn env m r t = .ok (flag, m2)) :
    m2.block.locked = m.block.locked ∧ m2.block.valid = m.block.valid ∧
    m2.block.number = m.block.number ∧
    ∃ rd2, m2.block.round = some rd2 ∧ rd2.number = r := by
  unfold roundFn at h
  cases hpop : (if r ≠ 0 then populate_end_time env.blockTime m.block r
      else Except.ok m.block) with
  | error k => simp only [hpop] at h; exact Except.noConfusion h
  | ok b =>
    simp only [hpop] at h
    have hb : b.locked = m.block.locked ∧ b.valid = m.block.valid ∧
        b.number = m.block.number := by
      by_cases hr0 : r ≠ 0
      · rw [if_pos hr0] at hpop
        have hf := populate_frame env.blockTime m.block r b hpop
        exact ⟨hf.1, hf.2.1, hf.2.2.1⟩
      · rw [if_neg hr0] at hpop
        injection hpop with hpop
        subst hpop
        exact ⟨rfl, rfl, rfl⟩
    cases hst : (match t with
        | some t => Except.ok t
        | none =>
          match lookupA b.end_time (r - 1) with
          | some t => Except.ok t
          | none => Except.error PanicKind.endTimeMissing) with
    | error k => simp only [hst] at h; exact Except.noConfusion h
    | ok start =>
      simp only [hst] at h
      split at h
      · injection h with h
        injection h with h1 h2
        subst h2
        refine ⟨?_, ?_, ?_, ?_⟩
        · rw [broadcast_locked]; exact hb.1
        · rw [broadcast_valid]; exact hb.2.1
        · rw [broadcast_number]; exact hb.2.2
        · refine round_of_map_number _ r ?_
          rw [roundNumberOf_broadcast]
          rfl
      · injection h with h
        injection h with h1 h2
        subst h2
        refine ⟨?_, ?_, ?_, ?_⟩
        · rw [setTimeout_locked]; exact hb.1
        · rw [setTimeout_valid]; exact hb.2.1
        · rw [setTimeout_number]; exact hb.2.2
        · refine round_of_map_number _ r ?_
          rw [roundNumberOf_setTimeout]
          rfl


lemma populateFrom_spec (bt : Nat) : ∀ (count r : Nat) (et : List (Nat × Nat)),
    (lookupA et (r - 1)).isSome →
    ∃ et2, populateFrom bt et r count = .ok et2 ∧ (lookupA et2 (r + count - 1)).isSome := by
  intro count
  induction count with
  | zero => exact fun r et h => ⟨et, rfl, by simpa using h⟩
  | succ c ih =>
    intro r et h
    obtain ⟨prev, hp⟩ := Option.isSome_iff_exists.mp h
    unfold populateFrom
    simp only [hp]
    obtain ⟨et2, h2, h3⟩ := ih (r + 1)
      (insertA et r ((RoundData.new r prev).end_time bt))
      (by simpa using congrArg Option.isSome (lookupA_insertA_self et r _))
    refine ⟨et2, h2, ?_⟩
    have harith : r + 1 + c - 1 = r + (c + 1) - 1 := by omega
    rw [harith] at h3
    exact h3

lemma populate_ok (bt : Nat) (b : BlockData) (target : Nat) (rd : RoundData)
    (hrd : b.round = some rd) (hlt : rd.number < target)
    (hcur : (lookupA b.end_time rd.number).isSome) :
    ∃ et2, populate_end_time bt b target = .ok { b with end_time := et2 } ∧
      (lookupA et2 (target - 1)).isSome := by
  unfold populate_end_time
  rw [hrd]
  obtain ⟨et2, hp, hlast⟩ := populateFrom_spec bt (target - (rd.number + 1)) (rd.number + 1)
    b.end_time (by simpa using hcur)
  have harith : rd.number + 1 + (target - (rd.number + 1)) - 1 = target - 1 := by omega
  rw [harith] at hlast
  exact ⟨et2, by simp only [hp, Except.map], hlast⟩

lemma roundFn_none_ok (env : Env) (m : Machine) (r : Nat) (rd : RoundData)
    (hrd : m.block.round = some rd) (hlt : rd.number < r)
    (hcur : (lookupA m.block.end_time rd.number).isSome) :
    ∃ flag m2, roundFn env m r none = .ok (flag, m2) := by
  unfold roundFn
  rw [if_pos (by omega : r ≠ 0)]
  obtain ⟨et2, hp, hlast⟩ := populate_ok env.blockTime m.block r rd hrd hlt hcur
  simp only [hp]
  obtain ⟨start, hstart⟩ := Option.isSome_iff_exists.mp hlast
  simp only [hstart]
  split
  · exact ⟨_, _, rfl⟩
  · exact ⟨_, _, rfl⟩

lemma stage2233_frame (env : Env) (m : Machine) (msg : Message) (rd : RoundData)
    (h : m.block.round = some rd) :
    ∃ rd2, (stage2233 env m msg).2.block.round = some rd2 ∧
      rd2.number = rd.number ∧ rd2.timeouts = rd.timeouts := by
  unfold stage2233
  simp only [h]
  repeat' split
  all_goals
    first
      | exact ⟨rd, h, rfl, rfl⟩
      | exact ⟨rd, rfl, rfl, rfl⟩
      | exact broadcast_round _ _ rd h
      | exact broadcast_round _ _ rd (by rfl)

lemma stage2233_locked_valid (env : Env) (m : Machine) (msg : Message) (rd : RoundData)
    (h : m.block.round = some rd) :
    ((stage2233 env m msg).2.block.locked = m.block.locked ∨
      ∃ i, (stage2233 env m msg).2.block.locked = some (rd.number, i)) ∧
    ((stage2233 env m msg).2.block.valid = m.block.valid ∨
      ∃ b, (stage2233 env m msg).2.block.valid = some (rd.number, b)) := by
  unfold stage2233
  simp only [h]
  repeat' split
  all_goals constructor
  all_goals
    first
      | exact Or.inl rfl
      | exact Or.inl (broadcast_locked _ _)
      | exact Or.inl (broadcast_valid _ _)
      | exact Or.inr ⟨_, rfl⟩
      | exact Or.inr ⟨_, broadcast_locked _ _⟩
      | exact Or.inr ⟨_, broadcast_valid _ _⟩

lemma stage4748_frame (env : Env) (m : Machine) (msg : Message) (rd : RoundData)
    (h : m.block.round = some rd) :
    ∃ rd2, (stage4748 env m msg).2.block.round = some rd2 ∧
      rd2.number = rd.number ∧
      (Step.Prevote ∈ rd2.timeouts ↔ Step.Prevote ∈ rd.timeouts) := by
  unfold stage4748
  simp only [h]
  split
  · obtain ⟨rd2, h2, hn, ht⟩ :=
      stage2233_frame env (m.setTimeout .Precommit) msg _ (setTimeout_round m .Precommit rd h)
    refine ⟨rd2, h2, by rw [hn, set_timeout_number], ?_⟩
    rw [ht]
    exact set_timeout_mem_prevote rd
  · obtain ⟨rd2, h2, hn, ht⟩ := stage2233_frame env m msg rd h
    exact ⟨rd2, h2, hn, by rw [ht]⟩

lemma stage4748_locked_valid (env : Env) (m : Machine) (msg : Message) (rd : RoundData)
    (h : m.block.round = some rd) :
    ((stage4748 env m msg).2.block.locked = m.block.locked ∨
      ∃ i, (stage4748 env m msg).2.block.locked = some (rd.number, i)) ∧
    ((stage4748 env m msg).2.block.valid = m.block.valid ∨
      ∃ b, (stage4748 env m msg).2.block.valid = some (rd.number, b)) := by
  unfold stage4748
  simp only [h]
  split
  · have hlv := stage2233_locked_valid env (m.setTimeout .Precommit) msg _
      (setTimeout_round m .Precommit rd h)
    constructor
    · rcases hlv.1 with h1 | ⟨i, h1⟩
      · exact Or.inl (h1.trans (setTimeout_locked m _))
      · rw [set_timeout_number] at h1
        exact Or.inr ⟨i, h1⟩
    · rcases hlv.2 with h1 | ⟨b, h1⟩
      · exact Or.inl (h1.trans (setTimeout_valid m _))
      · rw [set_timeout_number] at h1
        exact Or.inr ⟨b, h1⟩
  · exact stage2233_locked_valid env m msg rd h

lemma stage346_frame (env : Env) (m : Machine) (msg : Message) (rd : RoundData)
    (h : m.block.round = some rd) :
    ∃ rd2, (stage346 env m msg).2.block.round = some rd2 ∧ rd2.number = rd.number := by
  unfold stage346
  simp only [h]
  split
  · split
    · exact ⟨rd, h, rfl⟩
    · split
      · refine round_of_map_number _ _ ?_
        rw [roundNumberOf_broadcast]
        split
        · rw [roundNumberOf_setTimeout, h]
          rfl
        · rw [h]
          rfl
      · split
        · obtain ⟨rd2, h2, hn, _⟩ := stage4748_frame env (m.setTimeout .Prevote) msg _
            (setTimeout_round m .Prevote rd h)
          exact ⟨rd2, h2, by rw [hn, set_timeout_number]⟩
        · obtain ⟨rd2, h2, hn, _⟩ := stage4748_frame env m msg rd h
          exact ⟨rd2, h2, hn⟩
  · obtain ⟨rd2, h2, hn, _⟩ := stage4748_frame env m msg rd h
    exact ⟨rd2, h2, hn⟩

lemma stage346_locked_valid (env : Env) (m : Machine) (msg : Message) (rd : RoundData)
    (h : m.block.round = some rd) :
    ((stage346 env m msg).2.block.locked = m.block.locked ∨
      ∃ i, (stage346 env m msg).2.block.locked = some (rd.number, i)) ∧
    ((stage346 env m msg).2.block.valid = m.block.valid ∨
      ∃ b, (stage346 env m msg).2.block.valid = some (rd.number, b)) := by
  unfold stage346
  simp only [h]
  split
  · split
    · exact ⟨Or.inl rfl, Or.inl rfl⟩
    · split
      · constructor
        · refine Or.inl ((broadcast_locked _ _).trans ?_)
          split <;> first | exact setTimeout_locked m _ | rfl
        · refine Or.inl ((broadcast_valid _ _).trans ?_)
          split <;> first | exact setTimeout_valid m _ | rfl
      · split
        · have hlv := stage4748_locked_valid env (m.setTimeout .Prevote) msg _
            (setTimeout_round m .Prevote rd h)
          constructor
          · rcases hlv.1 with h1 | ⟨i, h1⟩
            · exact Or.inl (h1.trans (setTimeout_locked m _))
            · rw [set_timeout_number] at h1
              exact Or.inr ⟨i, h1⟩
          · rcases hlv.2 with h1 | ⟨b, h1⟩
            · exact Or.inl (h1.trans (setTimeout_valid m _))
            · rw [set_timeout_number] at h1
              exact Or.inr ⟨b, h1⟩
        · exact stage4748_locked_valid env m msg rd h
  · exact stage4748_locked_valid env m msg rd h

lemma message_to_messageRound (env : Env) (m : Machine) (msg : Message) (l2 : MessageLog)
    (hnum : msg.number = m.block.number)
    (hver : verify_precommit_signature env m.block msg.sender msg.round msg.data = .ok ())
    (hprop : msg.data.isProposal = true → msg.sender = env.weights.proposer msg.number msg.round)
    (hlog : m.block.log.logMsg msg = (.ok true, l2))
    (hfin : finalizer env (m.setLog l2) msg = .ok none) :
    message env m msg = messageRound env (m.setLog l2) msg := by
  unfold message
  rw [if_neg (by simp [hnum])]
  simp only [hver]
  rw [if_neg (by rintro ⟨hp, hne⟩; exact hne (hprop hp))]
  simp only [hlog, hfin]

lemma messageRound_locked_valid (env : Env) (m : Machine) (msg : Message) (rd : RoundData)
    (h : m.block.round = some rd) :
    ((messageRound env m msg).2.block.locked = m.block.locked ∨
      ∃ r2 i, (messageRound env m msg).2.block.locked = some (r2, i) ∧ rd.number ≤ r2) ∧
    ((messageRound env m msg).2.block.valid = m.block.valid ∨
      ∃ r2 b, (messageRound env m msg).2.block.valid = some (r2, b) ∧ rd.number ≤ r2) := by
  unfold messageRound
  simp only [h]
  split
  · exact ⟨Or.inl rfl, Or.inl rfl⟩
  · split
    · rename_i hnotlt hlt
      split
      · split
        · exact ⟨Or.inl rfl, Or.inl rfl⟩
        · rename_i roundMsgs hrm
          cases hrf : roundFn env (reverify env m msg.round roundMsgs) msg.round none with
          | error k =>
            simp only [hrf]
            exact ⟨Or.inl (reverify_frame env m msg.round roundMsgs).1,
              Or.inl (reverify_frame env m msg.round roundMsgs).2.1⟩
          | ok pair =>
            obtain ⟨flag, m2⟩ := pair
            have hfr := roundFn_ok_frame env _ msg.round none flag m2 hrf
            have hrev := reverify_frame env m msg.round roundMsgs
            cases flag with
            | true =>
              simp only [hrf]
              exact ⟨Or.inl (hfr.1.trans hrev.1), Or.inl (hfr.2.1.trans hrev.2.1)⟩
            | false =>
              simp only [hrf]
              obtain ⟨rd2, hrd2, hn2⟩ := hfr.2.2.2
              have hsl := stage346_locked_valid env m2 msg rd2 hrd2
              constructor
              · rcases hsl.1 with h1 | ⟨i, h1⟩
                · exact Or.inl (h1.trans (hfr.1.trans hrev.1))
                · exact Or.inr ⟨rd2.number, i, h1, by omega⟩
              · rcases hsl.2 with h1 | ⟨b, h1⟩
                · exact Or.inl (h1.trans (hfr.2.1.trans hrev.2.1))
                · exact Or.inr ⟨rd2.number, b, h1, by omega⟩
      · exact ⟨Or.inl rfl, Or.inl rfl⟩
    · have hsl := stage346_locked_valid env m msg rd h
      constructor
      · rcases hsl.1 with h1 | ⟨i, h1⟩
        · exact Or.inl h1
        · exact Or.inr ⟨rd.number, i, h1, le_refl _⟩
      · rcases hsl.2 with h1 | ⟨b, h1⟩
        · exact Or.inl h1
        · exact Or.inr ⟨rd.number, b, h1, le_refl _⟩

lemma message_locked_valid (env : Env) (m : Machine) (msg : Message) (rd : RoundData)
    (h : m.block.round = some rd) :
    ((message env m msg).2.block.locked = m.block.locked ∨
      ∃ r2 i, (message env m msg).2.block.locked = some (r2, i) ∧ rd.number ≤ r2) ∧
    ((message env m msg).2.block.valid = m.block.valid ∨
      ∃ r2 b, (message env m msg).2.block.valid = some (r2, b) ∧ rd.number ≤ r2) := by
  unfold message
  split
  · exact ⟨Or.inl rfl, Or.inl rfl⟩
  · split
    · exact ⟨Or.inl rfl, Or.inl rfl⟩
    · split
      · exact ⟨Or.inl rfl, Or.inl rfl⟩
      · split
        · exact ⟨Or.inl rfl, Or.inl rfl⟩
        · exact ⟨Or.inl rfl, Or.inl rfl⟩
        · dsimp only
          split
          · exact ⟨Or.inl rfl, Or.inl rfl⟩
          · exact ⟨Or.inl rfl, Or.inl rfl⟩
          · exact messageRound_locked_valid env _ msg rd h

/-! ## C2 -/

/-- C2: the claim states that message handling never panics on inbound messages at
the current height, and in particular that a `Proposal(Some(vr), block)` from the
correct proposer with `vr` below the current round is handled without panic even
when no message was ever logged for round `vr`.  The code violates this: after a
jump from round 0 to round 2 (three future-round prevotes, each handled `Ok`),
the proposal with `valid_round = Some(1)` reaches
`has_consensus(vr, Prevote(Some(id)))`, whose `message_instances` indexes
`self.log[&vr]` — a `HashMap` index that panics because round 1 was never logged. -/
theorem c2_message_panic_bug :
    newMachine envObs 0 100 blockX = Except.ok mStart ∧
    (applyMsgsResults envObs mStart c2Jump).2 = [.ok none, .ok none, .ok none] ∧
    c2Pre.block.round = some { number := 2, start := 118, step := .Propose, timeouts := [.Propose] } ∧
    lookupA c2Pre.block.log.log 1 = none ∧
    c2Prop.sender = envObs.weights.proposer c2Prop.number c2Prop.round ∧
    (message envObs c2Pre c2Prop).1 = .panic .logRoundMissing := by
  decide

/-! ## C3 -/

/-- C3: the claim states that `reset_by_commit` finds the round whose canonical
end time equals `commit.end_time`, populating the end-time map forward without
panicking when that round lies beyond every cached round, and panics only when the
commit predates round 0.  The code violates this: from round 0 (only
`end_time[0] = 108` cached), for a commit with `end_time = 118` — precisely round
1's canonical end, which does not predate round 0 — the forward loop increments to
round 1 and calls `populate_end_time(1)`, whose half-open range `(0+1)..1` inserts
nothing, so the loop's `self.block.end_time[&round]` index panics on the missing
round 1 entry (`endTimeMissing`), not the claimed `commitPredates` panic. -/
theorem c3_reset_by_commit_bug :
    newMachine envObs 0 100 blockX = Except.ok mStart ∧
    lookupA mStart.block.end_time 0 = some 108 ∧
    (RoundData.new 1 108).end_time envObs.blockTime = c3Commit.end_time ∧
    reset_by_commit envObs 10 mStart c3Commit blockX = Except.error .endTimeMissing := by
  decide

/-! ## C4 -/

/-- C4: the claim states that `reset` drops every queued outgoing message tagged
with the old height before starting `height+1`.  The code does the opposite: the
filter `msg.number == self.block.number` runs while `self.block` still holds the
old height, so it keeps exactly the old-height messages; after the reset the new
height is 2 yet the height-1 message is still queued. -/
theorem c4_reset_queue_bug :
    reset envObs c4Mq 0 blockX = Except.ok c4Post ∧
    c4Post.block.number = 2 ∧
    c4Msg.number = 1 ∧
    c4Post.queue = [c4Msg] := by
  decide

/-! ## C8 -/

/-- C8: the claim's deferral half holds — the round-2 precommit is accepted with
verification deferred (`end_time[2]` is not cached, so `Ok(None)`) — but the
re-verification half fails on the code: the jump re-verifies the logged precommits
BEFORE `round()` populates `end_time[msg.round]`, so `verify_precommit_signature`
finds no cached end time, checks nothing, and the validator whose deferred
signature `(9, [])` is invalid (for the now-cached end time 130, or any other) is
never slashed: the slash set stays empty. -/
theorem c8_deferred_precommit_bug :
    (applyMsgsResults envObs mStart c8Msgs).2 = [.ok none, .ok none, .ok none] ∧
    lookupA mStart.block.end_time 2 = none ∧
    c8Post.block.round = some { number := 2, start := 118, step := .Propose, timeouts := [.Propose] } ∧
    c8Post.block.log.get 2 1 .Precommit = some (.Precommit (some (7, (9, [])))) ∧
    lookupA c8Post.block.end_time 2 = some 130 ∧
    idealVerify 1 (commit_msg 130 7) (9, []) = false ∧
    c8Post.block.slashes = [] := by
  decide

/-! ## C1 -/

/-- C1: the claim states that the emitted commit is assembled exactly from the
precommits recorded for `(msg.round, Precommit(Some(block.id, *)))`, with weight
at least `threshold()` and an aggregate that verifies against
`commit_msg(end_time[msg.round], block_id)`.  The weight half holds here, but the
code assembles from the cross-round `precommitted` registry: validator 3, who
precommitted `blockX` only at round 0 (its registry signature covers
`commit_msg(108, 7)`), is listed in the round-1 commit even though no round-1
precommit of theirs exists, and the aggregate therefore fails verification
against `commit_msg(118, 7)` — the code's own
`debug_assert!(network.verify_commit(...))` is violated. -/
theorem c1_commit_assembly_bug :
    (applyMsgsResults envObs mStart c1Msgs).2 =
      [.ok none, .ok none, .ok none, .ok none, .ok none, .ok none, .ok none] ∧
    (message envObs c1Pre c1Clinch).1 = .ok (some blockX) ∧
    assembleCommit c1Post.block 1 blockX = Except.ok c1Commit ∧
    c1Commit.validators = [3, 1, 2, 0] ∧
    c1Post.block.log.get 1 3 .Precommit = none ∧
    wEq4.threshold ≤ (c1Commit.validators.map wEq4.weight).sum ∧
    verify_commit wEq4 idealVerify blockX.id c1Commit = false := by
  decide

/-! ## C10 -/

/-- C10 counterexample: the claim states that any two `Data` values of the same
variant whose block-ids (or blocks, for proposals) match compare equal regardless
of their other fields; but two proposals carrying the same block and differing
only in `valid_round` compare unequal, because `PartialEq for Data` compares the
proposal's round alongside the block. -/
theorem c10_data_eq_counterexample :
    Data.eq (.Proposal none blockX) (.Proposal (some 0) blockX) = false := by
  decide

/-- C10 amended: `Data` equality ignores exactly the signature inside `Precommit`;
prevotes and precommits compare their optional ids, proposals compare both the
`valid_round` field and the block, and values of different steps never compare
equal. -/
theorem c10_data_eq_characterization :
    (∀ (i : BlockId) (s s2 : Signature),
        Data.eq (.Precommit (some (i, s))) (.Precommit (some (i, s2))) = true) ∧
    (∀ (i i2 : BlockId) (s s2 : Signature),
        Data.eq (.Precommit (some (i, s))) (.Precommit (some (i2, s2))) = decide (i = i2)) ∧
    (∀ i i2 : Option BlockId, Data.eq (.Prevote i) (.Prevote i2) = decide (i = i2)) ∧
    (∀ (vr vr2 : Option Nat) (b b2 : Block),
        Data.eq (.Proposal vr b) (.Proposal vr2 b2) = (decide (vr = vr2) && decide (b = b2))) ∧
    (∀ d d2 : Data, d.step = d2.step ∨ Data.eq d d2 = false) := by
  refine ⟨fun i s s2 => by simp [Data.eq], fun i i2 s s2 => rfl, fun i i2 => rfl,
    fun vr vr2 b b2 => rfl, fun d d2 => ?_⟩
  cases d <;> cases d2 <;> simp [Data.eq, Data.step]

/-! ## C7 -/

/-- C7: `log(msg)` returns `Ok(false)` exactly on a replay (an entry at
`(round, sender, step)` equal to the message under `Data` equality); it returns
`Malicious(sender)` exactly when an entry at that slot differs from the message,
or when no entry exists there but the message is a precommit whose id conflicts
with the sender's recorded precommit id; and it returns `Ok(true)` exactly
otherwise — no prior entry at the slot and no precommit-registry conflict. -/
theorem c7_log_characterization (l : MessageLog) (msg : Message) :
    ((l.logMsg msg).1 = .ok false ↔
      ∃ d, l.get msg.round msg.sender msg.data.step = some d ∧ d.eq msg.data = true) ∧
    ((l.logMsg msg).1 = .error (.Malicious msg.sender) ↔
      ((∃ d, l.get msg.round msg.sender msg.data.step = some d ∧ d.eq msg.data = false) ∨
        (l.get msg.round msg.sender msg.data.step = none ∧ precommitConflict l msg = true))) ∧
    ((l.logMsg msg).1 = .ok true ↔
      (l.get msg.round msg.sender msg.data.step = none ∧ precommitConflict l msg = false)) := by
  have hget : l.get msg.round msg.sender msg.data.step =
      lookupA ((lookupA ((lookupA l.log msg.round).getD []) msg.sender).getD [])
        msg.data.step := by
    unfold MessageLog.get
    cases h1 : lookupA l.log msg.round with
    | none => simp [lookupA]
    | some rm =>
      cases h2 : lookupA rm msg.sender with
      | none => simp [h2, lookupA]
      | some ms => simp [h2]
  rw [hget]
  unfold MessageLog.logMsg precommitConflict
  cases hl : lookupA ((lookupA ((lookupA l.log msg.round).getD []) msg.sender).getD [])
      msg.data.step with
  | some existing =>
    simp only [hl]
    cases he : existing.eq msg.data <;> simp [he]
  | none =>
    simp only [hl]
    cases hd : msg.data with
    | Precommit p =>
      cases p with
      | none => simp
      | some hs =>
        obtain ⟨hash, sig⟩ := hs
        cases hp : lookupA l.precommitted msg.sender with
        | none => simp [hp]
        | some pv =>
          obtain ⟨prev, psig⟩ := pv
          by_cases hne : hash = prev <;> simp [hp, hne]
    | Proposal vr b => simp
    | Prevote i => simp

/-! ## C5 -/

/-- C5: when a message for a round above the current one passes the height,
signature, proposer and logging checks and the finalizer does not fire, then —
with the standing end-time invariant that the current round's end time is
cached — round participation exactly `fault_thresold()` leaves the machine
unchanged beyond the log (`Ok(None)`, round untouched), while exactly
`fault_thresold() + 1` makes the machine enter `round(msg.round, None)`: the
resulting current round is `msg.round`. -/
theorem c5_round_jump_boundary (env : Env) (m : Machine) (msg : Message) (rd : RoundData)
    (l2 : MessageLog)
    (hrd : m.block.round = some rd)
    (hnum : msg.number = m.block.number)
    (hver : verify_precommit_signature env m.block msg.sender msg.round msg.data = .ok ())
    (hprop : msg.data.isProposal = true → msg.sender = env.weights.proposer msg.number msg.round)
    (hlog : m.block.log.logMsg msg = (.ok true, l2))
    (hfin : finalizer env (m.setLog l2) msg = .ok none)
    (hjump : rd.number < msg.round)
    (hcur : (lookupA m.block.end_time rd.number).isSome) :
    (l2.round_participation env.weights msg.round = env.weights.fault_thresold →
      message env m msg = (.ok none, m.setLog l2)) ∧
    (l2.round_participation env.weights msg.round = env.weights.fault_thresold + 1 →
      ∃ rd2, (message env m msg).2.block.round = some rd2 ∧ rd2.number = msg.round) := by
  rw [message_to_messageRound env m msg l2 hnum hver hprop hlog hfin]
  have hr2 : (m.setLog l2).block.round = some rd := hrd
  constructor
  · intro hrp
    unfold messageRound
    simp only [hr2]
    rw [if_neg (by omega), if_pos hjump]
    have hrp2 : MessageLog.round_participation env.weights (m.setLog l2).block.log msg.round =
        env.weights.fault_thresold := hrp
    rw [if_neg (by omega)]
  · intro hrp
    unfold messageRound
    simp only [hr2]
    rw [if_neg (by omega), if_pos hjump]
    have hrp2 : MessageLog.round_participation env.weights (m.setLog l2).block.log msg.round =
        env.weights.fault_thresold + 1 := hrp
    rw [if_pos (by omega)]
    obtain ⟨rm, hrm⟩ : ∃ rm, lookupA (m.setLog l2).block.log.log msg.round = some rm := by
      have hpres := logMsg_round_present m.block.log msg
      rw [hlog] at hpres
      exact hpres
    simp only [hrm]
    have hrev := reverify_frame env (m.setLog l2) msg.round rm
    obtain ⟨flag, m2, hrf⟩ := roundFn_none_ok env (reverify env (m.setLog l2) msg.round rm)
      msg.round rd (by rw [hrev.2.2.1]; exact hr2) hjump (by rw [hrev.2.2.2.1]; exact hcur)
    have hfr := roundFn_ok_frame env _ msg.round none flag m2 hrf
    obtain ⟨rd2, hrd2, hn2⟩ := hfr.2.2.2
    cases flag with
    | true =>
      simp only [hrf]
      exact ⟨rd2, hrd2, hn2⟩
    | false =>
      simp only [hrf]
      obtain ⟨rd3, h3, hn3⟩ := stage346_frame env m2 msg rd2 hrd2
      exact ⟨rd3, h3, by rw [hn3, hn2]⟩

/-- Witness for C5 at the concrete jump scenario: two round-2 prevotes have been
logged (participation 2 = `fault_thresold()`), the third arrives, and the second
alternative of the theorem fires with participation 3. -/
theorem c5_round_jump_boundary_witness :
    (c5Log.round_participation envObs.weights c5Msg.round = envObs.weights.fault_thresold →
      message envObs c5Pre c5Msg = (.ok none, c5Pre.setLog c5Log)) ∧
    (c5Log.round_participation envObs.weights c5Msg.round = envObs.weights.fault_thresold + 1 →
      ∃ rd2, (message envObs c5Pre c5Msg).2.block.round = some rd2 ∧ rd2.number = c5Msg.round) :=
  c5_round_jump_boundary envObs c5Pre c5Msg rd0Start c5Log
    (by decide) (by decide) (by decide) (by decide) (by decide) (by decide)
    (by decide) (by decide)

/-! ## C6 -/

/-- C6: within one height (one `BlockData` value), the round components of
`locked` and `valid` never decrease across `message` — the only operation of the
height that assigns them (`round` and the timeout handlers never do).  Assuming
the standing invariant that the recorded rounds do not exceed the current round,
each field is either untouched or re-assigned at the (never smaller) current
round. -/
theorem c6_locked_valid_monotone (env : Env) (m : Machine) (msg : Message) (rd : RoundData)
    (hrd : m.block.round = some rd)
    (hl : ∀ r i, m.block.locked = some (r, i) → r ≤ rd.number)
    (hv : ∀ r b, m.block.valid = some (r, b) → r ≤ rd.number) :
    (∀ r i, m.block.locked = some (r, i) →
      ∃ r2 i2, (message env m msg).2.block.locked = some (r2, i2) ∧ r ≤ r2) ∧
    (∀ r b, m.block.valid = some (r, b) →
      ∃ r2 b2, (message env m msg).2.block.valid = some (r2, b2) ∧ r ≤ r2) := by
  obtain ⟨hL, hV⟩ := message_locked_valid env m msg rd hrd
  constructor
  · intro r i hri
    rcases hL with h1 | ⟨r2, i2, h1, hle⟩
    · exact ⟨r, i, h1.trans hri, le_refl r⟩
    · exact ⟨r2, i2, h1, le_trans (hl r i hri) hle⟩
  · intro r b hrb
    rcases hV with h1 | ⟨r2, b2, h1, hle⟩
    · exact ⟨r, b, h1.trans hrb, le_refl r⟩
    · exact ⟨r2, b2, h1, le_trans (hv r b hrb) hle⟩

/-- Witness for C6 at a concrete machine with `locked = (0, 7)` and
`valid = (0, blockX)` processing a height-1 prevote. -/
theorem c6_locked_valid_monotone_witness :
    (∀ r i, c6M.block.locked = some (r, i) →
      ∃ r2 i2, (message envObs c6M c6Msg).2.block.locked = some (r2, i2) ∧ r ≤ r2) ∧
    (∀ r b, c6M.block.valid = some (r, b) →
      ∃ r2 b2, (message envObs c6M c6Msg).2.block.valid = some (r2, b2) ∧ r ≤ r2) :=
  c6_locked_valid_monotone envObs c6M c6Msg rd0Start (by decide)
    (fun r i h => by
      have h0 : (some ((0 : Nat), (7 : BlockId))) = some (r, i) :=
        (by decide : c6M.block.locked = some (0, 7)).symm.trans h
      obtain ⟨h2, h3⟩ : 0 = r ∧ 7 = i := by simpa using h0
      rw [← h2]
      decide)
    (fun r b h => by
      have h0 : (some ((0 : Nat), blockX)) = some (r, b) :=
        (by decide : c6M.block.valid = some (0, blockX)).symm.trans h
      obtain ⟨h2, h3⟩ : 0 = r ∧ blockX = b := by simpa using h0
      rw [← h2]
      decide)

/-! ## C9 -/

/-- C9: at step `Prevote`, handling a prevote that passes the checks arms the
prevote timeout exactly when the round's total prevote participation reaches
`threshold()` (inclusive `>=`), and broadcasts `Precommit(None)` returning
`Ok(None)` as soon as the weight of `Prevote(None)` reaches `threshold()`
(also inclusive). -/
theorem c9_prevote_thresholds (env : Env) (m : Machine) (msg : Message) (rd : RoundData)
    (l2 : MessageLog) (v : ValidatorId) (p wt : Nat)
    (hrd : m.block.round = some rd)
    (hstep : rd.step = Step.Prevote)
    (hdata : msg.data.isPrevote = true)
    (hnum : msg.number = m.block.number)
    (hround : msg.round = rd.number)
    (hvid : m.block.validator_id = some v)
    (hto : Step.Prevote ∉ rd.timeouts)
    (hlog : m.block.log.logMsg msg = (.ok true, l2))
    (hmi : l2.message_instances env.weights rd.number (.Prevote none) = some (p, wt)) :
    (∃ rd2, (message env m msg).2.block.round = some rd2 ∧
      (Step.Prevote ∈ rd2.timeouts ↔ env.weights.threshold ≤ p)) ∧
    (env.weights.threshold ≤ wt →
      (message env m msg).1 = .ok none ∧
      (message env m msg).2.queue =
        m.queue ++ [{ sender := v, number := m.block.number, round := rd.number,
                      data := .Precommit none }]) := by
  obtain ⟨x, hx⟩ : ∃ x, msg.data = .Prevote x := by
    cases hd : msg.data
    · rw [hd] at hdata
      simp [Data.isPrevote] at hdata
    · exact ⟨_, rfl⟩
    · rw [hd] at hdata
      simp [Data.isPrevote] at hdata
  have hver : verify_precommit_signature env m.block msg.sender msg.round msg.data = .ok () := by
    rw [hx]
    rfl
  have hprop : msg.data.isProposal = true →
      msg.sender = env.weights.proposer msg.number msg.round := by
    rw [hx]
    intro hc
    simp [Data.isProposal] at hc
  have hfin : finalizer env (m.setLog l2) msg = .ok none := by
    unfold finalizer
    rw [if_neg]
    rw [hx]
    simp [Data.isProposal, Data.isPrecommit]
  rw [message_to_messageRound env m msg l2 hnum hver hprop hlog hfin]
  have hr2 : (m.setLog l2).block.round = some rd := hrd
  unfold messageRound
  simp only [hr2]
  rw [if_neg (by omega), if_neg (by omega)]
  unfold stage346
  simp only [hr2]
  rw [if_pos (⟨hstep, hdata⟩ : rd.step = Step.Prevote ∧ msg.data.isPrevote = true)]
  have hmi2 : MessageLog.message_instances env.weights (m.setLog l2).block.log rd.number
      (.Prevote none) = some (p, wt) := hmi
  simp only [hmi2]
  by_cases hp : env.weights.threshold ≤ p
  · rw [if_pos hp]
    have h1 : ((m.setLog l2).setTimeout .Prevote).block.round =
        some (rd.set_timeout .Prevote) := setTimeout_round _ _ rd hr2
    have hmem : Step.Prevote ∈ (rd.set_timeout .Prevote).timeouts := by
      unfold RoundData.set_timeout
      rw [if_neg hto]
      simp
    by_cases hw : env.weights.threshold ≤ wt
    · rw [if_pos hw]
      constructor
      · obtain ⟨rd2, hrd2, _, ht2⟩ := broadcast_round _ (Data.Precommit none) _ h1
        exact ⟨rd2, hrd2, by rw [ht2]; exact iff_of_true hmem hp⟩
      · intro _
        refine ⟨rfl, ?_⟩
        rw [broadcast_queue _ _ v (rd.set_timeout .Prevote)
          (by rw [setTimeout_validator_id]; exact hvid) h1]
        rw [setTimeout_queue, setTimeout_number, set_timeout_number]
        rfl
    · rw [if_neg hw]
      constructor
      · obtain ⟨rd2, hrd2, _, ht2⟩ := stage4748_frame env _ msg _ h1
        exact ⟨rd2, hrd2, by rw [ht2]; exact iff_of_true hmem hp⟩
      · intro hw2
        exact absurd hw2 hw
  · rw [if_neg hp]
    have hmem : Step.Prevote ∉ rd.timeouts := hto
    by_cases hw : env.weights.threshold ≤ wt
    · rw [if_pos hw]
      constructor
      · obtain ⟨rd2, hrd2, _, ht2⟩ := broadcast_round _ (Data.Precommit none) rd hr2
        exact ⟨rd2, hrd2, by rw [ht2]; exact iff_of_false hmem hp⟩
      · intro _
        refine ⟨rfl, ?_⟩
        rw [broadcast_queue _ _ v rd
          (show (m.setLog l2).block.validator_id = some v from hvid) hr2]
        rfl
    · rw [if_neg hw]
      constructor
      · obtain ⟨rd2, hrd2, _, ht2⟩ := stage4748_frame env _ msg rd hr2
        exact ⟨rd2, hrd2, by rw [ht2]; exact iff_of_false hmem hp⟩
      · intro hw2
        exact absurd hw2 hw

/-- Witness for C9 at a concrete validator machine sitting at step `Prevote` with
two nil-prevotes logged: the third nil-prevote makes both participation and the
`Prevote(None)` weight reach `threshold()` exactly (3 of total 4). -/
theorem c9_prevote_thresholds_witness :
    (∃ rd2, (message envObs c9M c9Msg).2.block.round = some rd2 ∧
      (Step.Prevote ∈ rd2.timeouts ↔ envObs.weights.threshold ≤ 3)) ∧
    (envObs.weights.threshold ≤ 3 →
      (message envObs c9M c9Msg).1 = .ok none ∧
      (message envObs c9M c9Msg).2.queue =
        c9M.queue ++ [{ sender := 3, number := c9M.block.number, round := c9RD.number,
                        data := .Precommit none }]) :=
  c9_prevote_thresholds envObs c9M c9Msg c9RD c9Log2 3 3 3
    (by decide) (by decide) (by decide) (by decide) (by decide) (by decide)
    (by decide) (by decide) (by decide)

end Tendermint
